import Mathlib

/-!
Verification development for the PySeqsee core: a shallow embedding of the
Controller step loop (src/tide/controller.py), the base category protocol
(src/farg/categorization/category.py), the application setup pipeline
(farg/core/main.py), and the memoized construction store that the spec calls
the Memoized Store.

Stochastic choices made by the code (weighted coin flips, weighted random
draws from the coderack) are embedded by threading an explicit supply of
outcomes; theorems quantify over every supply, so they hold for every
possible sequence of random choices.
-/

/-- A supply of pre-drawn random outcomes: booleans feed the weighted coin
flips (`Toss`), naturals feed the weighted random index choices made by the
coderack (selection and eviction). An exhausted supply yields defaults. -/
structure Supply where
  tosses : List Bool
  picks : List Nat
deriving DecidableEq

def Supply.nextToss (s : Supply) : Bool × Supply :=
  match s.tosses with
  | [] => (false, s)
  | b :: bs => (b, { s with tosses := bs })

def Supply.nextPick (s : Supply) : Nat × Supply :=
  match s.picks with
  | [] => (0, s)
  | p :: ps => (p, { s with picks := ps })

/-- Modelled from the spec: `farg.util.Toss` is not under src/. Per the spec
it is a weighted coin flip with the given success probability; the embedding
abstracts the randomness as the next outcome of the explicit supply, so every
theorem quantifying over supplies covers every possible sequence of flips. -/
def Toss (_probability : Rat) (s : Supply) : Bool × Supply :=
  s.nextToss

/-- Exceptions relevant to the step loop. Modelled from the spec:
`farg.exceptions` is not under src/. `farg` stands for the FargException
class of recoverable domain signals, which `Step` catches; the spec declares
that the halting signal and every other exception propagate uncaught out of
`Step`. `emptyCoderack` is the EmptyCoderackError resource error raised by
drawing from an empty coderack. -/
inductive Exc where
  | farg
  | halting
  | emptyCoderack
  | other
deriving DecidableEq

/-- Whether an exception is matched by `except FargException` in `Step`. -/
def isFargException (e : Exc) : Bool :=
  match e with
  | .farg => true
  | _ => false

/-- A codelet: a family identifier and an urgency weight. The controller
back-reference and the argument bindings play no role in the claims and are
not observable in the embedded operations. -/
structure Codelet where
  family : Nat
  urgency : Rat
deriving DecidableEq

/-- How a codelet action behaves when run: the codelets it enqueues via the
controller, and whether it returns or raises. The codelet family registry
is external to the core (supplied by the hosting application), so the
behavior is data attached to the family identifier through `Ctrl.registry`. -/
inductive Outcome where
  | done
  | raises (e : Exc)
deriving DecidableEq

structure FamilyBehavior where
  adds : List (Nat × Rat)
  outcome : Outcome
deriving DecidableEq

def defaultFamilyBehavior : FamilyBehavior :=
  ⟨[], Outcome.done⟩

/-- Modelled from the spec: `farg.coderack.Coderack` is not under src/. A
bounded weighted pool of codelets; per spec 4.2 an addition at capacity
performs one weighted random eviction among current members before the
insertion, and a draw removes a weighted random member. The weighted random
index choices are taken from the supply. -/
structure Coderack where
  capacity : Nat
  codelets : List Codelet
deriving DecidableEq

def Coderack.IsEmpty (r : Coderack) : Bool :=
  r.codelets.isEmpty

def Coderack.AddCodelet (r : Coderack) (c : Codelet) (s : Supply) : Coderack × Supply :=
  if r.codelets.length < r.capacity then
    (⟨r.capacity, r.codelets ++ [c]⟩, s)
  else
    let p := s.nextPick
    (⟨r.capacity, (r.codelets.eraseIdx (p.1 % r.codelets.length)) ++ [c]⟩, p.2)

def Coderack.GetCodelet (r : Coderack) (s : Supply) : Option (Codelet × Coderack × Supply) :=
  if r.codelets.isEmpty then none
  else
    let p := s.nextPick
    let idx := p.1 % r.codelets.length
    some (r.codelets.getD idx ⟨0, 0⟩, ⟨r.capacity, r.codelets.eraseIdx idx⟩, p.2)

/-- The Controller state (src/tide/controller.py). `ltm` holds the attached
LTM's `_timesteps` counter when an LTM is attached. `registry` is the external
codelet family registry mapping a family identifier to its behavior.
`handled` records the FargExceptions handled by `HandleFargException`
(modelled from the spec: the handler is not under src/; its default behavior
is to record the signal and continue). -/
structure Ctrl where
  registry : List FamilyBehavior
  coderack : Coderack
  ltm : Option Nat
  steps_taken : Nat
  routine_codelets_to_add : List (Nat × Rat × Rat)
  handled : List Exc
deriving DecidableEq

def outcomeOf (st : Ctrl) (c : Codelet) : Outcome :=
  (st.registry.getD c.family defaultFamilyBehavior).outcome

/-- One iteration of the loop body of `_AddRoutineCodelets`: for the triple
(family, urgency, probability), add the codelet when forced, else flip the
weighted coin (the Python `force or Toss(probability)` short-circuits, so the
coin is not consumed when forced). The third component records the codelets
injected, for stating the claims. -/
def injectTriple (force : Bool) (acc : Coderack × Supply × List Codelet)
    (t : Nat × Rat × Rat) : Coderack × Supply × List Codelet :=
  if force then
    let r := acc.1.AddCodelet ⟨t.1, t.2.1⟩ acc.2.1
    (r.1, r.2, acc.2.2 ++ [⟨t.1, t.2.1⟩])
  else
    let b := Toss t.2.2 acc.2.1
    if b.1 then
      let r := acc.1.AddCodelet ⟨t.1, t.2.1⟩ b.2
      (r.1, r.2, acc.2.2 ++ [⟨t.1, t.2.1⟩])
    else
      (acc.1, b.2, acc.2.2)

/-- `Controller._AddRoutineCodelets`: force is latched on when the coderack
is empty; each configured (family, urgency, probability) triple is then
injected when forced or when its coin flip succeeds. -/
def AddRoutineCodelets (st : Ctrl) (sup : Supply) (force : Bool) :
    Ctrl × Supply × List Codelet :=
  let forceB := st.coderack.IsEmpty || force
  let r := st.routine_codelets_to_add.foldl (injectTriple forceB) (st.coderack, sup, [])
  ({ st with coderack := r.1 }, r.2.1, r.2.2)

/-- Enqueue one codelet created by a running codelet's action, through the
coderack insertion. -/
def enqueueAdd (acc : Ctrl × Supply) (fc : Nat × Rat) : Ctrl × Supply :=
  let r := acc.1.coderack.AddCodelet ⟨fc.1, fc.2⟩ acc.2
  ({ acc.1 with coderack := r.1 }, r.2)

/-- `codelet.Run()`: look up the family's behavior in the registry, enqueue
the codelets the action creates, then return or raise per its outcome. -/
def runCodelet (st : Ctrl) (c : Codelet) (sup : Supply) : Ctrl × Supply × Option Exc :=
  let beh := st.registry.getD c.family defaultFamilyBehavior
  let r := beh.adds.foldl enqueueAdd (st, sup)
  match beh.outcome with
  | .done => (r.1, r.2, none)
  | .raises e => (r.1, r.2, some e)

/-- Result of one `Step` call: the new controller state, the remaining
supply, the list of codelets executed during the call (ghost output used to
state the claims), and the exception propagating out of `Step`, if any. -/
structure StepResult where
  state : Ctrl
  supply : Supply
  executed : List Codelet
  exc : Option Exc
deriving DecidableEq

/-- The exception a codelet action lets escape from `codelet.Run()`. -/
def outcomeExc (o : Outcome) : Option Exc :=
  match o with
  | .done => none
  | .raises e => some e

/-- The exception propagating out of `Step` when the executed codelet's
action has the given outcome: a FargException is caught by the handler,
anything else escapes. -/
def outcomePropagated (o : Outcome) : Option Exc :=
  match o with
  | .done => none
  | .raises e => if isFargException e then none else some e

/-- The first two lines of `Step`: increment `steps_taken`; if an LTM is
attached (`if self.ltm:`), set its `_timesteps` to the new step count. -/
def preInject (st : Ctrl) : Ctrl :=
  let st1 := { st with steps_taken := st.steps_taken + 1 }
  match st1.ltm with
  | some _ => { st1 with ltm := some st1.steps_taken }
  | none => st1

/-- The tail of the codelet execution in `Step`: run the drawn codelet on the
state whose coderack already excludes it; a raised FargException is caught
and handled (`HandleFargException` records it), anything else propagates. -/
def afterRun (st : Ctrl) (g : Codelet × Coderack × Supply) : StepResult :=
  let st4 := { st with coderack := g.2.1 }
  let r := runCodelet st4 g.1 g.2.2
  match r.2.2 with
  | none => ⟨r.1, r.2.1, [g.1], none⟩
  | some e =>
    if isFargException e then
      ⟨{ r.1 with handled := r.1.handled ++ [e] }, r.2.1, [g.1], none⟩
    else
      ⟨r.1, r.2.1, [g.1], some e⟩

/-- The selection-and-execution phase of `Step`: when the coderack is
non-empty, draw one codelet and run it. The `none` branch of the draw is the
EmptyCoderackError; it is proved unreachable. -/
def executePhase (st : Ctrl) (sup : Supply) : StepResult :=
  if st.coderack.IsEmpty then ⟨st, sup, [], none⟩
  else
    match st.coderack.GetCodelet sup with
    | none => ⟨st, sup, [], some .emptyCoderack⟩
    | some g => afterRun st g

/-- `Controller.Step` (src/tide/controller.py lines 68-79). -/
def Step (st : Ctrl) (sup : Supply) : StepResult :=
  let a := AddRoutineCodelets (preInject st) sup false
  executePhase a.1 a.2.1

/-- `Controller.RunUptoNSteps`: call `Step` up to n times; an exception
propagating out of `Step` aborts the loop and propagates. -/
def RunUptoNSteps : Nat → Ctrl → Supply → Ctrl × Supply × Option Exc
  | 0, st, sup => (st, sup, none)
  | n + 1, st, sup =>
    match (Step st sup).exc with
    | some e => ((Step st sup).state, (Step st sup).supply, some e)
    | none => RunUptoNSteps n (Step st sup).state (Step st sup).supply

/-- n calls to `Step` in sequence (the state and supply after each call feed
the next call), disregarding propagated exceptions; used to name the state
reached after n calls. -/
def stepIter : Nat → Ctrl → Supply → Ctrl × Supply
  | 0, st, sup => (st, sup)
  | n + 1, st, sup => stepIter n (Step st sup).state (Step st sup).supply

/-- The exception propagating out of the (k+1)-th call to `Step` when
stepping from the given state and supply. -/
def stepExcAt (k : Nat) (st : Ctrl) (sup : Supply) : Option Exc :=
  (Step (stepIter k st sup).1 (stepIter k st sup).2).exc

/-- Modelled from the spec: `farg.meta.MemoizedConstructor` is not under
src/. The Memoized Store maps a construction key derived from structural
content to the instance built for it; `GetOrCreate` returns the stored
instance when the key is present, else constructs a fresh one (fresh
instances are numbered by `next`, so distinct numbers are distinct
references) and registers it. -/
structure MemoStore (κ : Type) where
  table : List (κ × Nat)
  next : Nat

def MemoStore.empty (κ : Type) : MemoStore κ :=
  ⟨[], 0⟩

/-- First-match lookup of a construction key in the store's table. -/
def findId [DecidableEq κ] (k : κ) : List (κ × Nat) → Option Nat
  | [] => none
  | p :: ps => if p.1 = k then some p.2 else findId k ps

def GetOrCreate [DecidableEq κ] (s : MemoStore κ) (k : κ) : Nat × MemoStore κ :=
  match findId k s.table with
  | some i => (i, s)
  | none => (s.next, ⟨s.table ++ [(k, s.next)], s.next + 1⟩)

/-- Submit a sequence of construction keys to one store, collecting the
returned instances: the trace of one store lifetime. -/
def runKeys [DecidableEq κ] (s : MemoStore κ) : List κ → List Nat × MemoStore κ
  | [] => ([], s)
  | k :: ks =>
    let r := GetOrCreate s k
    let rest := runKeys r.2 ks
    (r.1 :: rest.1, rest.2)

/-- `farg.exceptions.FargError`, the failure raised by the unimplemented base
category operations. Modelled from the spec: spec 4.5 names this failure
class ProtocolViolationError. -/
structure FargError where
  message : String
deriving DecidableEq

abbrev ProtocolViolationError := FargError

def baseCategoryMessage : String := "IsInstance makes no sense on base category."

abbrev CatBinding := Nat

abbrev CatMapping := Nat

/-- The base class of any category
(src/farg/categorization/category.py). Concrete variants override the three
operations; the base leaves them unimplemented. -/
structure Category where

def Category.IsInstance (_self : Category) (_object : Nat) :
    Except ProtocolViolationError CatBinding :=
  .error ⟨baseCategoryMessage⟩

def Category.FindMapping (_self : Category) (_categorizable1 _categorizable2 : Nat) :
    Except ProtocolViolationError CatMapping :=
  .error ⟨baseCategoryMessage⟩

def Category.ApplyMapping (_self : Category) (_categorizable : Nat) (_mapping : CatMapping) :
    Except ProtocolViolationError Nat :=
  .error ⟨baseCategoryMessage⟩

/-- Command-line flags consumed by `Main` (farg/core/main.py). The empty
string stands for an unset (None) flag, matching Python truthiness of the
checks in the source. -/
structure Flags where
  run_mode : String
  stopping_condition : String
  input_spec_file : String
  persistent_directory : String
  ltm_directory : String
  stats_directory : String
  debug : String
  debug_config : String
deriving DecidableEq

/-- The ways `Main` setup fails fast (each is a print followed by
sys.exit(1) in the source). -/
inductive ConfigError where
  | missingApplicationName
  | invalidDebugLevel
  | inputSpecFileMissing
  | inputSpecFileNotFile
  | stoppingConditionWithGui
  | unknownStoppingCondition
  | noHomeDirectory
  | ltmDirectoryMissing
  | statsDirectoryMissing
  | inputSpecFileRequired
  | unrecognizedRunMode
deriving DecidableEq

/-- The filesystem as `Main` observes it: which paths exist as directories
and which as files. `os.mkdir` appends to the directories. -/
structure FileSystem where
  dirs : List String
  files : List String
deriving DecidableEq

def pathExists (fs : FileSystem) (p : String) : Bool :=
  fs.dirs.contains p || fs.files.contains p

def isFile (fs : FileSystem) (p : String) : Bool :=
  fs.files.contains p

def mkdirFs (fs : FileSystem) (p : String) : FileSystem :=
  { fs with dirs := fs.dirs ++ [p] }

def joinPath (a b : String) : String :=
  a ++ "/" ++ b

/-- Names accepted by `getattr(logging, name)` as integer logging levels. -/
def debugLevels : List String :=
  [ "CRITICAL", "FATAL", "ERROR", "WARN", "WARNING", "INFO", "DEBUG", "NOTSET" ]

def pyseqseeDirName : String := ".pyseqsee"

def ltmSubdirName : String := "ltm"

def statsSubdirName : String := "stats"

/-- The run mode instance `CreateRunModeInstance` builds; `single` carries
the stopping condition function chosen during setup. -/
inductive RunMode where
  | gui
  | single (stoppingConditionFn : Option String)
  | batch
  | sxs
deriving DecidableEq

/-- `Main.VerifyStoppingConditionSanity`: in gui mode no stopping condition
may be given; otherwise a given stopping condition name (other than unset or
the literal None) must be one of the registered names, and its function is
selected. The registered names come from the external StoppingConditions
class, passed in as `scList`. -/
def VerifyStoppingConditionSanity (flags : Flags) (scList : List String) :
    Except ConfigError (Option String) :=
  if flags.run_mode = "gui" then
    if flags.stopping_condition ≠ "" then .error .stoppingConditionWithGui
    else .ok none
  else
    if flags.stopping_condition ≠ "" ∧ flags.stopping_condition ≠ "None" then
      if scList.contains flags.stopping_condition then
        .ok (some flags.stopping_condition)
      else .error .unknownStoppingCondition
    else .ok none

/-- `Main.VerifyPersistentDirectoryPath`: default the persistent directory to
home/.pyseqsee/app, creating missing directories; fail when no home
directory exists. -/
def VerifyPersistentDirectoryPath (appName : String) (flags : Flags)
    (fs : FileSystem) (home : String) : Except ConfigError (Flags × FileSystem) :=
  let r : Except ConfigError (String × FileSystem) :=
    if flags.persistent_directory = "" then
      if pathExists fs home = false then .error .noHomeDirectory
      else
        let ph := joinPath home pyseqseeDirName
        let fs1 := if pathExists fs ph then fs else mkdirFs fs ph
        .ok (joinPath ph appName, fs1)
    else .ok (flags.persistent_directory, fs)
  match r with
  | .error e => .error e
  | .ok dirFs =>
    let fs2 := if pathExists dirFs.2 dirFs.1 then dirFs.2 else mkdirFs dirFs.2 dirFs.1
    .ok ({ flags with persistent_directory := dirFs.1 }, fs2)

/-- `Main.VerifyLTMPath`: a given ltm directory must exist; otherwise derive
one under the persistent directory, creating it if missing. -/
def VerifyLTMPath (appName : String) (flags : Flags) (fs : FileSystem)
    (home : String) : Except ConfigError (Flags × FileSystem) :=
  if flags.ltm_directory ≠ "" then
    if pathExists fs flags.ltm_directory then .ok (flags, fs)
    else .error .ltmDirectoryMissing
  else
    match VerifyPersistentDirectoryPath appName flags fs home with
    | .error e => .error e
    | .ok ffs =>
      let ld := joinPath ffs.1.persistent_directory ltmSubdirName
      let fs2 := if pathExists ffs.2 ld then ffs.2 else mkdirFs ffs.2 ld
      .ok ({ ffs.1 with ltm_directory := ld }, fs2)

/-- `Main.VerifyStatsPath`: same shape as `VerifyLTMPath` for the stats
directory. -/
def VerifyStatsPath (appName : String) (flags : Flags) (fs : FileSystem)
    (home : String) : Except ConfigError (Flags × FileSystem) :=
  if flags.stats_directory ≠ "" then
    if pathExists fs flags.stats_directory then .ok (flags, fs)
    else .error .statsDirectoryMissing
  else
    match VerifyPersistentDirectoryPath appName flags fs home with
    | .error e => .error e
    | .ok ffs =>
      let sd := joinPath ffs.1.persistent_directory statsSubdirName
      let fs2 := if pathExists ffs.2 sd then ffs.2 else mkdirFs ffs.2 sd
      .ok ({ ffs.1 with stats_directory := sd }, fs2)

/-- `Main.CreateRunModeInstance`. The external input-spec reader is
abstracted: with a given input spec file, reading succeeds. -/
def CreateRunModeInstance (flags : Flags) (scFn : Option String) :
    Except ConfigError RunMode :=
  if flags.run_mode = "gui" then .ok .gui
  else if flags.run_mode = "single" then .ok (.single scFn)
  else
    if flags.input_spec_file = "" then .error .inputSpecFileRequired
    else if flags.run_mode = "batch" then .ok .batch
    else if flags.run_mode = "sxs" then .ok .sxs
    else .error .unrecognizedRunMode

/-- The state `Main` setup produces on success: processed flags, the mutated
filesystem, the chosen stopping condition function, and the run mode. No
step is taken anywhere during setup; stepping only happens later inside
`Run`, which requires this setup to have succeeded. -/
structure MainSetup where
  flags : Flags
  fs : FileSystem
  stoppingConditionFn : Option String
  runMode : RunMode
deriving DecidableEq

/-- `Main.ProcessFlags`, in source order: logging configuration (the invalid
debug level check), the input spec file checks, the stopping condition
sanity check, the three directory verifications, and run mode creation. -/
def ProcessFlags (appName : String) (scList : List String) (flags : Flags)
    (fs : FileSystem) (home : String) : Except ConfigError MainSetup :=
  if flags.debug ≠ "" ∧ debugLevels.contains flags.debug.toUpper = false then
    .error .invalidDebugLevel
  else if flags.input_spec_file ≠ "" ∧ pathExists fs flags.input_spec_file = false then
    .error .inputSpecFileMissing
  else if flags.input_spec_file ≠ "" ∧ isFile fs flags.input_spec_file = false then
    .error .inputSpecFileNotFile
  else
    match VerifyStoppingConditionSanity flags scList with
    | .error e => .error e
    | .ok scFn =>
      match VerifyPersistentDirectoryPath appName flags fs home with
      | .error e => .error e
      | .ok pfs =>
        match VerifyLTMPath appName pfs.1 pfs.2 home with
        | .error e => .error e
        | .ok lfs =>
          match VerifyStatsPath appName lfs.1 lfs.2 home with
          | .error e => .error e
          | .ok sfs =>
            match CreateRunModeInstance sfs.1 scFn with
            | .error e => .error e
            | .ok rm => .ok ⟨sfs.1, sfs.2, scFn, rm⟩

/-- `Main.__init__`: fail when the required application name is unset, then
process the flags. The empty string stands for an unset application name. -/
def MainInit (appName : String) (scList : List String) (flags : Flags)
    (fs : FileSystem) (home : String) : Except ConfigError MainSetup :=
  if appName = "" then .error .missingApplicationName
  else ProcessFlags appName scList flags fs home

/-- An empty randomness supply (all choices take the defaults). -/
def supEmpty : Supply := ⟨[], []⟩

/-- A codelet family whose action raises the halting signal. -/
def famHalt : FamilyBehavior := ⟨[], .raises .halting⟩

/-- A codelet family whose action raises the recoverable domain signal. -/
def famRecov : FamilyBehavior := ⟨[], .raises .farg⟩

/-- A codelet family whose action returns normally. -/
def famDone : FamilyBehavior := ⟨[], .done⟩

/-- A controller whose one routine codelet family raises the halting
signal. -/
def ctrlHalt : Ctrl := ⟨[famHalt], ⟨10, []⟩, none, 0, [(0, 1, 1)], []⟩

/-- A controller whose one routine codelet family raises the recoverable
signal. -/
def ctrlRecov : Ctrl := ⟨[famRecov], ⟨10, []⟩, none, 0, [(0, 1, 1)], []⟩

/-- A controller with an attached LTM whose counter starts at zero. -/
def ctrlLtm : Ctrl := ⟨[], ⟨10, []⟩, some 0, 0, [], []⟩

/-- A controller with one routine triple of probability zero. -/
def ctrlBoot : Ctrl := ⟨[], ⟨10, []⟩, none, 0, [(2, 1, 0)], []⟩

/-- A controller with one routine triple whose family returns normally. -/
def ctrlOne : Ctrl := ⟨[famDone], ⟨10, []⟩, none, 0, [(0, 1, 1)], []⟩

/-- A controller with no routine codelets and an empty coderack. -/
def ctrlIdle : Ctrl := ⟨[], ⟨10, []⟩, none, 0, [], []⟩

/-- Another controller with no routine codelets and an empty coderack. -/
def ctrlBare : Ctrl := ⟨[], ⟨10, []⟩, none, 0, [], []⟩

/-- Flags selecting single mode with an unregistered stopping condition. -/
def flagsW : Flags :=
  { run_mode := "single", stopping_condition := "bogus", input_spec_file := "",
    persistent_directory := "", ltm_directory := "", stats_directory := "",
    debug := "", debug_config := "" }

def fsW : FileSystem := ⟨[], []⟩

def appNameW : String := "seqsee"

def scListW : List String := [ "found_answer" ]

def homeW : String := "/home/user"

/-! Helper lemmas about the controller embedding. -/

lemma preInject_fields (st : Ctrl) :
    (preInject st).steps_taken = st.steps_taken + 1 ∧
    (preInject st).registry = st.registry ∧
    (preInject st).coderack = st.coderack ∧
    (preInject st).handled = st.handled ∧
    (preInject st).routine_codelets_to_add = st.routine_codelets_to_add := by
  unfold preInject
  cases h : st.ltm <;> simp [h]

lemma preInject_ltm_some (st : Ctrl) (t : Nat) (h : st.ltm = some t) :
    (preInject st).ltm = some (st.steps_taken + 1) := by
  unfold preInject
  simp [h]

lemma addRoutine_registry (st : Ctrl) (sup : Supply) (f : Bool) :
    (AddRoutineCodelets st sup f).1.registry = st.registry := rfl

lemma addRoutine_steps (st : Ctrl) (sup : Supply) (f : Bool) :
    (AddRoutineCodelets st sup f).1.steps_taken = st.steps_taken := rfl

lemma addRoutine_ltm (st : Ctrl) (sup : Supply) (f : Bool) :
    (AddRoutineCodelets st sup f).1.ltm = st.ltm := rfl

lemma addRoutine_handled (st : Ctrl) (sup : Supply) (f : Bool) :
    (AddRoutineCodelets st sup f).1.handled = st.handled := rfl

lemma addRoutine_nil (st : Ctrl) (sup : Supply) (f : Bool)
    (h : st.routine_codelets_to_add = []) :
    (AddRoutineCodelets st sup f).1.coderack = st.coderack ∧
    (AddRoutineCodelets st sup f).2.1 = sup := by
  unfold AddRoutineCodelets
  rw [h]
  exact ⟨rfl, rfl⟩

lemma foldl_enqueueAdd_fields (l : List (Nat × Rat)) :
    ∀ p : Ctrl × Supply,
      (l.foldl enqueueAdd p).1.registry = p.1.registry ∧
      (l.foldl enqueueAdd p).1.steps_taken = p.1.steps_taken ∧
      (l.foldl enqueueAdd p).1.ltm = p.1.ltm ∧
      (l.foldl enqueueAdd p).1.handled = p.1.handled ∧
      (l.foldl enqueueAdd p).1.routine_codelets_to_add = p.1.routine_codelets_to_add := by
  induction l with
  | nil => intro p; exact ⟨rfl, rfl, rfl, rfl, rfl⟩
  | cons a l ih =>
    intro p
    rw [List.foldl_cons]
    exact ih (enqueueAdd p a)

lemma runCodelet_fields (st : Ctrl) (c : Codelet) (sup : Supply) :
    (runCodelet st c sup).1.registry = st.registry ∧
    (runCodelet st c sup).1.steps_taken = st.steps_taken ∧
    (runCodelet st c sup).1.ltm = st.ltm ∧
    (runCodelet st c sup).1.handled = st.handled ∧
    (runCodelet st c sup).1.routine_codelets_to_add = st.routine_codelets_to_add := by
  unfold runCodelet
  rcases ho : (st.registry.getD c.family defaultFamilyBehavior).outcome with _ | e <;>
    simp only [ho] <;>
    exact foldl_enqueueAdd_fields _ (st, sup)

lemma runCodelet_exc (st : Ctrl) (c : Codelet) (sup : Supply) :
    (runCodelet st c sup).2.2 = outcomeExc (outcomeOf st c) := by
  unfold runCodelet outcomeExc outcomeOf
  rcases ho : (st.registry.getD c.family defaultFamilyBehavior).outcome with _ | e <;> simp only [ho]

lemma outcomeOf_update_coderack (st : Ctrl) (rack : Coderack) (c : Codelet) :
    outcomeOf { st with coderack := rack } c = outcomeOf st c := rfl

lemma outcomeOf_eq_of_registry (st1 st2 : Ctrl) (c : Codelet)
    (h : st1.registry = st2.registry) : outcomeOf st1 c = outcomeOf st2 c := by
  unfold outcomeOf
  rw [h]

lemma getCodelet_some (r : Coderack) (s : Supply) (h : r.codelets.isEmpty = false) :
    r.GetCodelet s = some (r.codelets.getD (s.nextPick.1 % r.codelets.length) ⟨0, 0⟩,
      ⟨r.capacity, r.codelets.eraseIdx (s.nextPick.1 % r.codelets.length)⟩, s.nextPick.2) := by
  unfold Coderack.GetCodelet
  simp [h]

lemma executePhase_empty (st : Ctrl) (sup : Supply) (h : st.coderack.codelets = []) :
    executePhase st sup = ⟨st, sup, [], none⟩ := by
  unfold executePhase
  have h2 : st.coderack.IsEmpty = true := by
    unfold Coderack.IsEmpty
    rw [h]
    rfl
  rw [if_pos h2]

lemma executePhase_nonempty (st : Ctrl) (sup : Supply)
    (h : st.coderack.codelets.isEmpty = false) :
    executePhase st sup =
      afterRun st (st.coderack.codelets.getD (sup.nextPick.1 % st.coderack.codelets.length) ⟨0, 0⟩,
        ⟨st.coderack.capacity, st.coderack.codelets.eraseIdx (sup.nextPick.1 % st.coderack.codelets.length)⟩,
        sup.nextPick.2) := by
  unfold executePhase
  have h2 : ¬ (st.coderack.IsEmpty = true) := by
    unfold Coderack.IsEmpty
    rw [h]
    simp
  rw [if_neg h2, getCodelet_some st.coderack sup h]


lemma afterRun_eq (st : Ctrl) (g : Codelet × Coderack × Supply) :
    afterRun st g =
      (match outcomeOf st g.1 with
       | .done => ⟨(runCodelet { st with coderack := g.2.1 } g.1 g.2.2).1,
                   (runCodelet { st with coderack := g.2.1 } g.1 g.2.2).2.1, [g.1], none⟩
       | .raises e =>
         if isFargException e then
           ⟨{ (runCodelet { st with coderack := g.2.1 } g.1 g.2.2).1 with
              handled := (runCodelet { st with coderack := g.2.1 } g.1 g.2.2).1.handled ++ [e] },
            (runCodelet { st with coderack := g.2.1 } g.1 g.2.2).2.1, [g.1], none⟩
         else
           ⟨(runCodelet { st with coderack := g.2.1 } g.1 g.2.2).1,
            (runCodelet { st with coderack := g.2.1 } g.1 g.2.2).2.1, [g.1], some e⟩) := by
  have hexc := runCodelet_exc { st with coderack := g.2.1 } g.1 g.2.2
  rw [outcomeOf_update_coderack] at hexc
  simp only [afterRun]
  rcases ho : outcomeOf st g.1 with _ | e
  · rw [ho] at hexc
    simp only [outcomeExc] at hexc
    rw [hexc]
  · rw [ho] at hexc
    simp only [outcomeExc] at hexc
    rw [hexc]

lemma afterRun_executed (st : Ctrl) (g : Codelet × Coderack × Supply) :
    (afterRun st g).executed = [g.1] := by
  rw [afterRun_eq]
  rcases ho : outcomeOf st g.1 with _ | e
  · rfl
  · cases hf : isFargException e <;> simp [hf]

lemma afterRun_exc (st : Ctrl) (g : Codelet × Coderack × Supply) :
    (afterRun st g).exc = outcomePropagated (outcomeOf st g.1) := by
  rw [afterRun_eq]
  unfold outcomePropagated
  rcases ho : outcomeOf st g.1 with _ | e
  · rfl
  · cases hf : isFargException e <;> simp [hf]

lemma afterRun_handled (st : Ctrl) (g : Codelet × Coderack × Supply) (e : Exc)
    (he : outcomeOf st g.1 = .raises e) (hf : isFargException e = true) :
    e ∈ (afterRun st g).state.handled := by
  rw [afterRun_eq, he]
  simp [hf]

lemma afterRun_state_fields (st : Ctrl) (g : Codelet × Coderack × Supply) :
    (afterRun st g).state.steps_taken = st.steps_taken ∧
    (afterRun st g).state.ltm = st.ltm ∧
    (afterRun st g).state.registry = st.registry ∧
    (afterRun st g).state.routine_codelets_to_add = st.routine_codelets_to_add := by
  have hf := runCodelet_fields { st with coderack := g.2.1 } g.1 g.2.2
  rw [afterRun_eq]
  rcases ho : outcomeOf st g.1 with _ | e
  · exact ⟨hf.2.1, hf.2.2.1, hf.1, hf.2.2.2.2⟩
  · cases hfe : isFargException e
    · simp only [hfe, Bool.false_eq_true, if_false]
      exact ⟨hf.2.1, hf.2.2.1, hf.1, hf.2.2.2.2⟩
    · simp only [hfe, if_true]
      exact ⟨hf.2.1, hf.2.2.1, hf.1, hf.2.2.2.2⟩

lemma executePhase_fields (st : Ctrl) (sup : Supply) :
    (executePhase st sup).state.steps_taken = st.steps_taken ∧
    (executePhase st sup).state.ltm = st.ltm ∧
    (executePhase st sup).state.registry = st.registry ∧
    (executePhase st sup).state.routine_codelets_to_add = st.routine_codelets_to_add := by
  unfold executePhase
  by_cases h : st.coderack.IsEmpty = true
  · rw [if_pos h]
    exact ⟨rfl, rfl, rfl, rfl⟩
  · rw [if_neg h]
    rcases hg : st.coderack.GetCodelet sup with _ | g
    · exact ⟨rfl, rfl, rfl, rfl⟩
    · exact afterRun_state_fields st g

lemma step_fields (st : Ctrl) (sup : Supply) :
    (Step st sup).state.steps_taken = st.steps_taken + 1 ∧
    (Step st sup).state.ltm = (preInject st).ltm ∧
    (Step st sup).state.registry = st.registry ∧
    (Step st sup).state.routine_codelets_to_add = st.routine_codelets_to_add := by
  have he := executePhase_fields (AddRoutineCodelets (preInject st) sup false).1
    (AddRoutineCodelets (preInject st) sup false).2.1
  have hp := preInject_fields st
  exact ⟨he.1.trans hp.1, he.2.1, he.2.2.1.trans hp.2.1, he.2.2.2.trans hp.2.2.2.2⟩

lemma getD_mem_of_lt (l : List Codelet) (i : Nat) (h : i < l.length) :
    l.getD i ⟨0, 0⟩ ∈ l := by
  induction l generalizing i with
  | nil => exact absurd h (Nat.not_lt_zero i)
  | cons a l ih =>
    cases i with
    | zero => exact List.mem_cons_self a l
    | succ i => exact List.mem_cons_of_mem a (ih i (Nat.lt_of_succ_lt_succ h))

lemma eraseIdx_len (l : List Codelet) (i : Nat) (h : i < l.length) :
    (l.eraseIdx i).length + 1 = l.length := by
  induction l generalizing i with
  | nil => exact absurd h (Nat.not_lt_zero i)
  | cons a l ih =>
    cases i with
    | zero => rfl
    | succ i =>
      have h2 := ih i (Nat.lt_of_succ_lt_succ h)
      simp only [List.eraseIdx, List.length_cons]
      omega

lemma step_cases (st : Ctrl) (sup : Supply) :
    ((Step st sup).executed = [] ∧ (Step st sup).exc = none ∧
      (AddRoutineCodelets (preInject st) sup false).1.coderack.codelets = []) ∨
    (∃ c, (Step st sup).executed = [c] ∧
      c ∈ (AddRoutineCodelets (preInject st) sup false).1.coderack.codelets ∧
      (Step st sup).exc = outcomePropagated (outcomeOf st c) ∧
      (∀ e, outcomeOf st c = .raises e → isFargException e = true →
        e ∈ (Step st sup).state.handled)) := by
  by_cases h : (AddRoutineCodelets (preInject st) sup false).1.coderack.codelets = []
  · left
    have hs : Step st sup = ⟨(AddRoutineCodelets (preInject st) sup false).1,
        (AddRoutineCodelets (preInject st) sup false).2.1, [], none⟩ :=
      executePhase_empty _ _ h
    rw [hs]
    exact ⟨rfl, rfl, h⟩
  · right
    have hne : (AddRoutineCodelets (preInject st) sup false).1.coderack.codelets.isEmpty = false := by
      rcases hcl : (AddRoutineCodelets (preInject st) sup false).1.coderack.codelets with _ | ⟨x, xs⟩
      · exact absurd hcl h
      · rfl
    have hlen : 0 < (AddRoutineCodelets (preInject st) sup false).1.coderack.codelets.length := by
      rcases hcl : (AddRoutineCodelets (preInject st) sup false).1.coderack.codelets with _ | ⟨x, xs⟩
      · exact absurd hcl h
      · simp
    have hidxlt : (AddRoutineCodelets (preInject st) sup false).2.1.nextPick.1 %
        (AddRoutineCodelets (preInject st) sup false).1.coderack.codelets.length <
        (AddRoutineCodelets (preInject st) sup false).1.coderack.codelets.length :=
      Nat.mod_lt _ hlen
    have hs : Step st sup = afterRun (AddRoutineCodelets (preInject st) sup false).1
        ((AddRoutineCodelets (preInject st) sup false).1.coderack.codelets.getD
          ((AddRoutineCodelets (preInject st) sup false).2.1.nextPick.1 %
            (AddRoutineCodelets (preInject st) sup false).1.coderack.codelets.length) ⟨0, 0⟩,
         ⟨(AddRoutineCodelets (preInject st) sup false).1.coderack.capacity,
          (AddRoutineCodelets (preInject st) sup false).1.coderack.codelets.eraseIdx
            ((AddRoutineCodelets (preInject st) sup false).2.1.nextPick.1 %
              (AddRoutineCodelets (preInject st) sup false).1.coderack.codelets.length)⟩,
         (AddRoutineCodelets (preInject st) sup false).2.1.nextPick.2) :=
      executePhase_nonempty _ _ hne
    have hreg : (AddRoutineCodelets (preInject st) sup false).1.registry = st.registry :=
      (addRoutine_registry _ _ _).trans (preInject_fields st).2.1
    have hout := outcomeOf_eq_of_registry (AddRoutineCodelets (preInject st) sup false).1 st
        ((AddRoutineCodelets (preInject st) sup false).1.coderack.codelets.getD
          ((AddRoutineCodelets (preInject st) sup false).2.1.nextPick.1 %
            (AddRoutineCodelets (preInject st) sup false).1.coderack.codelets.length) ⟨0, 0⟩) hreg
    refine ⟨(AddRoutineCodelets (preInject st) sup false).1.coderack.codelets.getD
        ((AddRoutineCodelets (preInject st) sup false).2.1.nextPick.1 %
          (AddRoutineCodelets (preInject st) sup false).1.coderack.codelets.length) ⟨0, 0⟩,
      ?_, getD_mem_of_lt _ _ hidxlt, ?_, ?_⟩
    · rw [hs]
      exact afterRun_executed _ _
    · rw [hs, afterRun_exc _ _, hout]
    · intro e he hf
      rw [hs]
      exact afterRun_handled _ _ e (by rw [hout]; exact he) hf

lemma step_exc_none_of_recoverable (st : Ctrl) (sup : Supply)
    (h : ∀ c, c ∈ (Step st sup).executed →
      outcomeOf st c = .done ∨ outcomeOf st c = .raises .farg) :
    (Step st sup).exc = none := by
  rcases step_cases st sup with ⟨_, hnone, _⟩ | ⟨c, hex, _, hexc, _⟩
  · exact hnone
  · rcases h c (by rw [hex]; exact List.mem_cons_self c []) with ho | ho <;>
      rw [hexc, ho] <;> rfl

lemma step_exc_of_halting (st : Ctrl) (sup : Supply)
    (h : ∃ c, (Step st sup).executed = [c] ∧ outcomeOf st c = .raises .halting) :
    (Step st sup).exc = some .halting := by
  obtain ⟨c, hex, ho⟩ := h
  rcases step_cases st sup with ⟨hnil, _, _⟩ | ⟨c2, hex2, _, hexc, _⟩
  · rw [hnil] at hex
    cases hex
  · rw [hex2] at hex
    injection hex with hc _
    rw [hexc, hc, ho]
    rfl

lemma stepIter_steps (n : Nat) : ∀ (st : Ctrl) (sup : Supply),
    (stepIter n st sup).1.steps_taken = st.steps_taken + n := by
  induction n with
  | zero => intro st sup; rfl
  | succ n ih =>
    intro st sup
    have h1 : stepIter (n + 1) st sup = stepIter n (Step st sup).state (Step st sup).supply := rfl
    rw [h1, ih (Step st sup).state (Step st sup).supply, (step_fields st sup).1]
    omega

lemma stepIter_ltm (n : Nat) : ∀ (st : Ctrl) (sup : Supply) (t : Nat),
    st.ltm = some t → 0 < n → (stepIter n st sup).1.ltm = some (st.steps_taken + n) := by
  induction n with
  | zero => intro st sup t _ h0; exact absurd h0 (Nat.lt_irrefl 0)
  | succ n ih =>
    intro st sup t h _
    have hs : (Step st sup).state.ltm = some (st.steps_taken + 1) :=
      (step_fields st sup).2.1.trans (preInject_ltm_some st t h)
    have h1 : stepIter (n + 1) st sup = stepIter n (Step st sup).state (Step st sup).supply := rfl
    rcases Nat.eq_zero_or_pos n with hn | hn
    · subst hn
      rw [h1]
      exact hs
    · rw [h1, ih (Step st sup).state (Step st sup).supply (st.steps_taken + 1) hs hn,
        (step_fields st sup).1]
      have : st.steps_taken + 1 + n = st.steps_taken + (n + 1) := by omega
      rw [this]

lemma runUpto_succ_none (m : Nat) (st : Ctrl) (sup : Supply)
    (h : (Step st sup).exc = none) :
    RunUptoNSteps (m + 1) st sup = RunUptoNSteps m (Step st sup).state (Step st sup).supply := by
  simp only [RunUptoNSteps, h]

lemma runUpto_succ_some (m : Nat) (st : Ctrl) (sup : Supply) (e : Exc)
    (h : (Step st sup).exc = some e) :
    RunUptoNSteps (m + 1) st sup = ((Step st sup).state, (Step st sup).supply, some e) := by
  simp only [RunUptoNSteps, h]

lemma runUpto_none (m : Nat) : ∀ (st : Ctrl) (sup : Supply),
    (∀ j, j < m → stepExcAt j st sup = none) →
    RunUptoNSteps m st sup = ((stepIter m st sup).1, (stepIter m st sup).2, none) := by
  induction m with
  | zero => intro st sup _; rfl
  | succ m ih =>
    intro st sup h
    have h0 : (Step st sup).exc = none := h 0 (Nat.succ_pos m)
    rw [runUpto_succ_none m st sup h0]
    exact ih (Step st sup).state (Step st sup).supply (fun j hj => h (j + 1) (by omega))

lemma runUpto_halt (k : Nat) : ∀ (m : Nat) (st : Ctrl) (sup : Supply) (e : Exc),
    (∀ j, j < k → stepExcAt j st sup = none) →
    stepExcAt k st sup = some e → k < m →
    RunUptoNSteps m st sup = ((stepIter (k + 1) st sup).1, (stepIter (k + 1) st sup).2, some e) := by
  induction k with
  | zero =>
    intro m st sup e _ h2 h3
    rcases m with _ | m
    · exact absurd h3 (Nat.lt_irrefl 0)
    · rw [runUpto_succ_some m st sup e h2]
      rfl
  | succ k ih =>
    intro m st sup e h1 h2 h3
    rcases m with _ | m
    · exact absurd h3 (Nat.not_lt_zero (k + 1))
    · have h0 : (Step st sup).exc = none := h1 0 (Nat.succ_pos k)
      rw [runUpto_succ_none m st sup h0]
      exact ih m (Step st sup).state (Step st sup).supply e
        (fun j hj => h1 (j + 1) (by omega)) h2 (by omega)

lemma addCodelet_nonempty (r : Coderack) (c : Codelet) (s : Supply) :
    (r.AddCodelet c s).1.codelets ≠ [] := by
  unfold Coderack.AddCodelet
  split <;> simp

lemma injectTriple_forced_nonempty (acc : Coderack × Supply × List Codelet)
    (t : Nat × Rat × Rat) : (injectTriple true acc t).1.codelets ≠ [] := by
  unfold injectTriple
  simp only [if_true]
  exact addCodelet_nonempty acc.1 ⟨t.1, t.2.1⟩ acc.2.1

lemma foldl_injectTriple_true_injected (l : List (Nat × Rat × Rat)) :
    ∀ acc : Coderack × Supply × List Codelet,
      (l.foldl (injectTriple true) acc).2.2 =
        acc.2.2 ++ l.map (fun t => (⟨t.1, t.2.1⟩ : Codelet)) := by
  induction l with
  | nil => intro acc; simp
  | cons t l ih =>
    intro acc
    rw [List.foldl_cons, ih (injectTriple true acc t)]
    have h : (injectTriple true acc t).2.2 = acc.2.2 ++ [(⟨t.1, t.2.1⟩ : Codelet)] := rfl
    rw [h]
    simp

lemma foldl_injectTriple_true_nonempty (l : List (Nat × Rat × Rat)) :
    ∀ acc : Coderack × Supply × List Codelet, l ≠ [] →
      (l.foldl (injectTriple true) acc).1.codelets ≠ [] := by
  induction l with
  | nil => intro acc h; exact absurd rfl h
  | cons t l ih =>
    intro acc _
    rw [List.foldl_cons]
    by_cases hl : l = []
    · subst hl
      exact injectTriple_forced_nonempty acc t
    · exact ih (injectTriple true acc t) hl

/-! Lemmas about the Memoized Store. -/

lemma findId_append_left {κ : Type} [DecidableEq κ] (l1 l2 : List (κ × Nat)) (k : κ) (i : Nat)
    (h : findId k l1 = some i) : findId k (l1 ++ l2) = some i := by
  induction l1 with
  | nil => cases h
  | cons p l ih =>
    simp only [findId] at h
    simp only [List.cons_append, findId]
    by_cases hp : p.1 = k
    · rw [if_pos hp] at h ⊢
      exact h
    · rw [if_neg hp] at h ⊢
      exact ih h

lemma findId_append_self {κ : Type} [DecidableEq κ] (l : List (κ × Nat)) (k : κ) (n : Nat)
    (h : findId k l = none) : findId k (l ++ [(k, n)]) = some n := by
  induction l with
  | nil => simp [findId]
  | cons p l ih =>
    simp only [findId] at h
    simp only [List.cons_append, findId]
    by_cases hp : p.1 = k
    · rw [if_pos hp] at h
      cases h
    · rw [if_neg hp] at h ⊢
      exact ih h

lemma getOrCreate_lookup {κ : Type} [DecidableEq κ] (s : MemoStore κ) (k : κ) :
    findId k (GetOrCreate s k).2.table = some (GetOrCreate s k).1 := by
  unfold GetOrCreate
  cases h : findId k s.table with
  | some i => simp [h]
  | none =>
    simp only [h]
    exact findId_append_self s.table k s.next h

lemma getOrCreate_preserves {κ : Type} [DecidableEq κ] (s : MemoStore κ) (k k2 : κ) (i : Nat)
    (h : findId k s.table = some i) :
    findId k (GetOrCreate s k2).2.table = some i := by
  unfold GetOrCreate
  cases h2 : findId k2 s.table with
  | some j => simpa [h2] using h
  | none =>
    simp only [h2]
    exact findId_append_left s.table _ k i h

lemma runKeys_preserves {κ : Type} [DecidableEq κ] (ks : List κ) :
    ∀ (s : MemoStore κ) (k : κ) (i : Nat),
      findId k s.table = some i → findId k (runKeys s ks).2.table = some i := by
  induction ks with
  | nil => intro s k i h; exact h
  | cons k0 ks ih =>
    intro s k i h
    exact ih (GetOrCreate s k0).2 k i (getOrCreate_preserves s k k0 i h)

lemma runKeys_result {κ : Type} [DecidableEq κ] (ks : List κ) (d : κ) :
    ∀ (s : MemoStore κ) (i : Nat), i < ks.length →
      findId (ks.getD i d) (runKeys s ks).2.table = some ((runKeys s ks).1.getD i 0) := by
  induction ks with
  | nil => intro s i h; exact absurd h (Nat.not_lt_zero i)
  | cons k ks ih =>
    intro s i h
    cases i with
    | zero =>
      show findId k (runKeys (GetOrCreate s k).2 ks).2.table = some (GetOrCreate s k).1
      exact runKeys_preserves ks (GetOrCreate s k).2 k (GetOrCreate s k).1
        (getOrCreate_lookup s k)
    | succ i =>
      show findId (ks.getD i d) (runKeys (GetOrCreate s k).2 ks).2.table =
        some ((runKeys (GetOrCreate s k).2 ks).1.getD i 0)
      exact ih (GetOrCreate s k).2 i (Nat.lt_of_succ_lt_succ h)

lemma getCodelet_inv (r : Coderack) (s : Supply) (g : Codelet × Coderack × Supply)
    (h : r.GetCodelet s = some g) :
    g.1 ∈ r.codelets ∧ g.2.1.codelets.length + 1 = r.codelets.length := by
  by_cases he : r.codelets.isEmpty = true
  · unfold Coderack.GetCodelet at h
    rw [if_pos he] at h
    cases h
  · have hef : r.codelets.isEmpty = false := by simpa using he
    have hq := getCodelet_some r s hef
    have h2 := h.symm.trans hq
    injection h2 with h3
    have hlen : 0 < r.codelets.length := by
      rcases hcl : r.codelets with _ | ⟨x, xs⟩
      · rw [hcl] at hef
        simp at hef
      · simp
    rw [h3]
    exact ⟨getD_mem_of_lt _ _ (Nat.mod_lt _ hlen), eraseIdx_len _ _ (Nat.mod_lt _ hlen)⟩

/-! The claims. -/

/-- C1: for all content-equal construction keys submitted to the Memoized
Store within one store lifetime, `GetOrCreate` returns the same reference:
in any trace of keys submitted to one store, equal keys at positions i and j
receive the identical instance — in particular constructing a Category twice
with equal structural content yields the identical object. -/
theorem GetOrCreate_identity_invariant {κ : Type} [DecidableEq κ]
    (ks : List κ) (d : κ) (i j : Nat) (hi : i < ks.length) (hj : j < ks.length)
    (hk : ks.getD i d = ks.getD j d) :
    (runKeys (MemoStore.empty κ) ks).1.getD i 0 =
      (runKeys (MemoStore.empty κ) ks).1.getD j 0 := by
  have h1 := runKeys_result ks d (MemoStore.empty κ) i hi
  have h2 := runKeys_result ks d (MemoStore.empty κ) j hj
  rw [hk] at h1
  exact Option.some.inj (h1.symm.trans h2)

theorem GetOrCreate_identity_invariant_wit :
    (runKeys (MemoStore.empty Nat) [5, 7, 5]).1.getD 0 0 =
      (runKeys (MemoStore.empty Nat) [5, 7, 5]).1.getD 2 0 :=
  GetOrCreate_identity_invariant [5, 7, 5] 0 0 2 (by decide) (by decide) (by decide)

/-- C2: an exception raised by the executed codelet that is a recoverable
domain signal (FargException) is caught and handled locally, so `Step`
returns normally and the signal is recorded by the handler; any other
exception propagates out of `Step` uncaught. -/
theorem Step_recoverable_caught (st : Ctrl) (sup : Supply) (c : Codelet)
    (hc : c ∈ (Step st sup).executed) :
    (outcomeOf st c = .done → (Step st sup).exc = none) ∧
    (∀ e, outcomeOf st c = .raises e →
      (isFargException e = true →
        (Step st sup).exc = none ∧ e ∈ (Step st sup).state.handled) ∧
      (isFargException e = false → (Step st sup).exc = some e)) := by
  rcases step_cases st sup with ⟨hex, _, _⟩ | ⟨c2, hex, _, hexc, hhand⟩
  · rw [hex] at hc
    cases hc
  · rw [hex] at hc
    have hcc : c = c2 := List.eq_of_mem_singleton hc
    subst hcc
    constructor
    · intro ho
      rw [hexc, ho]
      rfl
    · intro e ho
      constructor
      · intro hf
        refine ⟨?_, hhand e ho hf⟩
        rw [hexc, ho]
        simp [outcomePropagated, hf]
      · intro hf
        rw [hexc, ho]
        simp [outcomePropagated, hf]

theorem Step_recoverable_caught_wit :
    (Step ctrlRecov supEmpty).exc = none ∧
    Exc.farg ∈ (Step ctrlRecov supEmpty).state.handled :=
  ((Step_recoverable_caught ctrlRecov supEmpty ⟨0, 1⟩ (by decide)).2 .farg (by decide)).1 rfl

/-- C3: `RunUptoNSteps m` calls `Step` up to m times and stops early the
first time a signal propagates out of `Step`: when the codelet executed on
step k+1 raises the halting signal (and no earlier step let a signal
escape), exactly k+1 steps are performed; when every executed codelet
returns or raises only the recoverable signal, the loop never stops early
and the step count reaches m. -/
theorem RunUptoNSteps_halting_semantics (st : Ctrl) (sup : Supply) (m k : Nat)
    (hk : k < m) :
    ((∀ j, j < k → stepExcAt j st sup = none) →
     (∃ c, (Step (stepIter k st sup).1 (stepIter k st sup).2).executed = [c] ∧
        outcomeOf (stepIter k st sup).1 c = .raises .halting) →
     (RunUptoNSteps m st sup).2.2 = some .halting ∧
     (RunUptoNSteps m st sup).1.steps_taken = st.steps_taken + (k + 1)) ∧
    ((∀ j, j < m → ∀ c, c ∈ (Step (stepIter j st sup).1 (stepIter j st sup).2).executed →
        outcomeOf (stepIter j st sup).1 c = .done ∨
        outcomeOf (stepIter j st sup).1 c = .raises .farg) →
     (RunUptoNSteps m st sup).2.2 = none ∧
     (RunUptoNSteps m st sup).1.steps_taken = st.steps_taken + m) := by
  constructor
  · intro h1 h2
    have hexc : stepExcAt k st sup = some .halting :=
      step_exc_of_halting (stepIter k st sup).1 (stepIter k st sup).2 h2
    have hrun := runUpto_halt k m st sup .halting h1 hexc hk
    rw [hrun]
    exact ⟨rfl, stepIter_steps (k + 1) st sup⟩
  · intro h
    have hnone : ∀ j, j < m → stepExcAt j st sup = none := fun j hj =>
      step_exc_none_of_recoverable (stepIter j st sup).1 (stepIter j st sup).2 (h j hj)
    have hrun := runUpto_none m st sup hnone
    rw [hrun]
    exact ⟨rfl, stepIter_steps m st sup⟩

theorem RunUptoNSteps_halting_semantics_wit :
    ((RunUptoNSteps 5 ctrlHalt supEmpty).2.2 = some .halting ∧
     (RunUptoNSteps 5 ctrlHalt supEmpty).1.steps_taken = 1) ∧
    ((RunUptoNSteps 3 ctrlRecov supEmpty).2.2 = none ∧
     (RunUptoNSteps 3 ctrlRecov supEmpty).1.steps_taken = 3) := by
  constructor
  · have h := (RunUptoNSteps_halting_semantics ctrlHalt supEmpty 5 0 (by decide)).1
      (fun j hj => absurd hj (Nat.not_lt_zero j))
      ⟨⟨0, 1⟩, by decide, by decide⟩
    simpa [ctrlHalt] using h
  · have h := (RunUptoNSteps_halting_semantics ctrlRecov supEmpty 3 0 (by decide)).2 (by decide)
    simpa [ctrlRecov] using h

/-- C4: `Step` first increments the step counter and then sets an attached
LTM's simulated-time counter to the new step count; hence for every n, after
n calls to `Step` on a controller with an attached LTM and a zero step
counter, the LTM's counter equals n. -/
theorem Step_monotonic_time (st : Ctrl) (sup : Supply) (n t : Nat)
    (h : st.ltm = some t) :
    (Step st sup).state.ltm = some (st.steps_taken + 1) ∧
    (st.steps_taken = 0 → 0 < n →
      (stepIter n st sup).1.ltm = some n ∧ (stepIter n st sup).1.steps_taken = n) := by
  constructor
  · exact (step_fields st sup).2.1.trans (preInject_ltm_some st t h)
  · intro h0 hn
    constructor
    · have h2 := stepIter_ltm n st sup t h hn
      rw [h0] at h2
      simpa using h2
    · have h2 := stepIter_steps n st sup
      rw [h0] at h2
      simpa using h2

theorem Step_monotonic_time_wit :
    (stepIter 2 ctrlLtm supEmpty).1.ltm = some 2 ∧
    (stepIter 2 ctrlLtm supEmpty).1.steps_taken = 2 :=
  (Step_monotonic_time ctrlLtm supEmpty 2 0 rfl).2 rfl (by decide)

/-- C5: when the coderack is empty at routine injection, injection is forced
for every configured (family, urgency, probability) triple regardless of the
configured probabilities and of every random outcome, so the coderack is
non-empty immediately after injection whenever at least one routine triple
is configured. -/
theorem Step_forced_bootstrap (st : Ctrl) (sup : Supply) (force : Bool)
    (hEmpty : st.coderack.codelets = []) :
    (AddRoutineCodelets st sup force).2.2 =
      st.routine_codelets_to_add.map (fun t => (⟨t.1, t.2.1⟩ : Codelet)) ∧
    (st.routine_codelets_to_add ≠ [] →
      (AddRoutineCodelets st sup force).1.coderack.codelets ≠ []) := by
  have hF : (st.coderack.IsEmpty || force) = true := by
    unfold Coderack.IsEmpty
    rw [hEmpty]
    rfl
  simp only [AddRoutineCodelets]
  rw [hF]
  constructor
  · simpa using foldl_injectTriple_true_injected st.routine_codelets_to_add
      (st.coderack, sup, [])
  · intro hne
    exact foldl_injectTriple_true_nonempty st.routine_codelets_to_add
      (st.coderack, sup, []) hne

theorem Step_forced_bootstrap_wit :
    (AddRoutineCodelets ctrlBoot supEmpty false).2.2 = [⟨2, 1⟩] ∧
    (AddRoutineCodelets ctrlBoot supEmpty false).1.coderack.codelets ≠ [] := by
  have h := Step_forced_bootstrap ctrlBoot supEmpty false rfl
  exact ⟨h.1.trans (by decide), h.2 (by decide)⟩

/-- C6 counterexample: a `Step` call on a controller with an empty coderack
and no configured routine codelets executes no codelet at all, so it is not
the case that every call to `Step` executes exactly one codelet. -/
theorem Step_exactly_one_counterexample :
    (Step ctrlIdle supEmpty).executed.length ≠ 1 := by decide

/-- C6 (amended): every call to `Step` injects routine work and then
executes at most one codelet; whenever the coderack is non-empty after
injection, exactly one codelet is executed, drawn from the current members;
and the draw removes the drawn codelet from the coderack before execution. -/
theorem Step_at_most_one_codelet (st : Ctrl) (sup : Supply) :
    ((Step st sup).executed = [] ∨ ∃ c, (Step st sup).executed = [c]) ∧
    ((AddRoutineCodelets (preInject st) sup false).1.coderack.codelets ≠ [] →
      ∃ c, (Step st sup).executed = [c] ∧
        c ∈ (AddRoutineCodelets (preInject st) sup false).1.coderack.codelets) ∧
    (∀ (r : Coderack) (s : Supply) (g : Codelet × Coderack × Supply),
      r.GetCodelet s = some g →
      g.1 ∈ r.codelets ∧ g.2.1.codelets.length + 1 = r.codelets.length) := by
  refine ⟨?_, ?_, fun r s g hg => getCodelet_inv r s g hg⟩
  · rcases step_cases st sup with ⟨hex, _, _⟩ | ⟨c, hex, _, _, _⟩
    · exact Or.inl hex
    · exact Or.inr ⟨c, hex⟩
  · intro hne
    rcases step_cases st sup with ⟨_, _, hnil⟩ | ⟨c, hex, hmem, _, _⟩
    · exact absurd hnil hne
    · exact ⟨c, hex, hmem⟩

theorem Step_at_most_one_codelet_wit :
    ∃ c, (Step ctrlOne supEmpty).executed = [c] ∧
      c ∈ (AddRoutineCodelets (preInject ctrlOne) supEmpty false).1.coderack.codelets :=
  (Step_at_most_one_codelet ctrlOne supEmpty).2.1 (by decide)

/-- C7: each of the three protocol operations of the unimplemented base
Category fails with the ProtocolViolationError (FargError in the code) for
every input. -/
theorem Category_base_protocol_violation (c : Category)
    (object categorizable1 categorizable2 : Nat) (mapping : CatMapping) :
    c.IsInstance object = .error ⟨baseCategoryMessage⟩ ∧
    c.FindMapping categorizable1 categorizable2 = .error ⟨baseCategoryMessage⟩ ∧
    c.ApplyMapping categorizable1 mapping = .error ⟨baseCategoryMessage⟩ :=
  ⟨rfl, rfl, rfl⟩

/-- C8: a missing required application name fails Main setup immediately in
the constructor, and an unknown stopping-condition name (outside gui mode)
fails setup during flag processing; in both cases setup yields an error and
no run mode, so no step can ever be taken. -/
theorem Main_config_fail_fast (appName : String) (scList : List String)
    (flags : Flags) (fs : FileSystem) (home : String) :
    (appName = "" →
      MainInit appName scList flags fs home = .error .missingApplicationName) ∧
    (appName ≠ "" → flags.debug = "" → flags.input_spec_file = "" →
      flags.run_mode ≠ "gui" → flags.stopping_condition ≠ "" →
      flags.stopping_condition ≠ "None" →
      scList.contains flags.stopping_condition = false →
      MainInit appName scList flags fs home = .error .unknownStoppingCondition) := by
  constructor
  · intro h
    unfold MainInit
    rw [if_pos h]
  · intro h1 h2 h3 h4 h5 h6 h7
    have h7n : ¬ (scList.contains flags.stopping_condition = true) := by
      rw [h7]
      simp
    have hsc : VerifyStoppingConditionSanity flags scList =
        .error .unknownStoppingCondition := by
      unfold VerifyStoppingConditionSanity
      rw [if_neg h4, if_pos ⟨h5, h6⟩, if_neg h7n]
    unfold MainInit
    rw [if_neg h1]
    unfold ProcessFlags
    rw [if_neg (by simp [h2]), if_neg (by simp [h3]), if_neg (by simp [h3]), hsc]

theorem Main_config_fail_fast_wit :
    MainInit "" scListW flagsW fsW homeW = .error .missingApplicationName ∧
    MainInit appNameW scListW flagsW fsW homeW = .error .unknownStoppingCondition :=
  ⟨(Main_config_fail_fast "" scListW flagsW fsW homeW).1 rfl,
   (Main_config_fail_fast appNameW scListW flagsW fsW homeW).2 (by decide) rfl rfl
     (by decide) (by decide) (by decide) (by decide)⟩

/-- C9: `Step` only draws a codelet after checking that the coderack is
non-empty, so the draw itself never raises EmptyCoderackError — the error
can only appear out of `Step` if the executed codelet's own action raised
it; and on a controller with no configured routine codelets and an empty
coderack, `Step` returns normally without executing any codelet. -/
theorem Step_no_emptyCoderack (st : Ctrl) (sup : Supply) :
    ((Step st sup).exc = some .emptyCoderack →
      ∃ c, c ∈ (Step st sup).executed ∧ outcomeOf st c = .raises .emptyCoderack) ∧
    (st.routine_codelets_to_add = [] → st.coderack.codelets = [] →
      (Step st sup).exc = none ∧ (Step st sup).executed = []) := by
  constructor
  · intro h
    rcases step_cases st sup with ⟨_, hnone, _⟩ | ⟨c, hex, _, hexc, _⟩
    · rw [hnone] at h
      cases h
    · refine ⟨c, by rw [hex]; exact List.mem_cons_self c [], ?_⟩
      rw [hexc] at h
      rcases ho : outcomeOf st c with _ | e
      · rw [ho] at h
        simp [outcomePropagated] at h
      · rw [ho] at h
        cases hf : isFargException e
        · simp only [outcomePropagated, hf, Bool.false_eq_true, if_false,
            Option.some.injEq] at h
          rw [h]
        · simp only [outcomePropagated, hf, if_true] at h
          cases h
  · intro h1 h2
    have hroutine : (preInject st).routine_codelets_to_add = [] := by
      rw [(preInject_fields st).2.2.2.2, h1]
    have hrack := (addRoutine_nil (preInject st) sup false hroutine).1
    have hempty : (AddRoutineCodelets (preInject st) sup false).1.coderack.codelets = [] := by
      rw [hrack, (preInject_fields st).2.2.1, h2]
    have hs : Step st sup = ⟨(AddRoutineCodelets (preInject st) sup false).1,
        (AddRoutineCodelets (preInject st) sup false).2.1, [], none⟩ :=
      executePhase_empty _ _ hempty
    rw [hs]
    exact ⟨rfl, rfl⟩

theorem Step_no_emptyCoderack_wit :
    (Step ctrlBare supEmpty).exc = none ∧ (Step ctrlBare supEmpty).executed = [] :=
  (Step_no_emptyCoderack ctrlBare supEmpty).2 rfl rfl

/-- C10: `steps_taken` is incremented exactly once per `Step` call, at the
start of the call, and the increment is not rolled back when the executed
codelet raises an exception that propagates out of `Step`. -/
theorem Step_increments_steps_taken (st : Ctrl) (sup : Supply) :
    (Step st sup).state.steps_taken = st.steps_taken + 1 ∧
    (∀ e, (Step st sup).exc = some e →
      (Step st sup).state.steps_taken = st.steps_taken + 1) :=
  ⟨(step_fields st sup).1, fun _ _ => (step_fields st sup).1⟩

theorem Step_increments_steps_taken_wit :
    (Step ctrlHalt supEmpty).state.steps_taken = ctrlHalt.steps_taken + 1 :=
  (Step_increments_steps_taken ctrlHalt supEmpty).2 .halting (by decide)
